import Mathlib

/-!
Verification of the AnyLink Figma plugin core (src/code.js): URL
normalization, overlay detection, indirection resolution, overlay
synthesis cleanup, link deletion, and the page-scan registry logic,
modelled as pure Lean functions over explicit document and storage
states.  Geometry (JavaScript doubles) is modelled with exact
arithmetic: rationals for node coordinates, reals where the code calls
Math.sqrt.
-/

namespace AnyLink

/-! ## JavaScript string primitives used by addHyperlink (code.js 848-855) -/

/-- Code points removed by the JavaScript String.prototype.trim
(WhiteSpace and LineTerminator productions). -/
def isJsWhitespace (c : Char) : Bool :=
  c == ' ' || c == '\t' || c == '\n' || c == '\r' ||
  c.toNat == 0x0b || c.toNat == 0x0c || c.toNat == 0xa0 || c.toNat == 0xfeff ||
  c.toNat == 0x1680 || (0x2000 ≤ c.toNat && c.toNat ≤ 0x200a) ||
  c.toNat == 0x2028 || c.toNat == 0x2029 || c.toNat == 0x202f ||
  c.toNat == 0x205f || c.toNat == 0x3000

/-- JavaScript url.trim(): strip leading and trailing whitespace. -/
def jsTrim (s : String) : String :=
  ⟨((s.data.dropWhile isJsWhitespace).reverse.dropWhile isJsWhitespace).reverse⟩

/-- ASCII lower casing, the case folding the regex flag i performs on the
ASCII pattern letters of /^https?:\/\//i in non-Unicode mode. -/
def asciiLower (c : Char) : Char :=
  if 65 ≤ c.toNat && c.toNat ≤ 90 then Char.ofNat (c.toNat + 32) else c

/-- hyperlinkUrl.match(/^https?:\/\//i) viewed as a Boolean test
(code.js line 853). -/
def matchesHttpScheme (s : String) : Bool :=
  let l := s.data.map asciiLower
  List.isPrefixOf "http://".data l || List.isPrefixOf "https://".data l

/-- The URL validation and normalization performed inline by addHyperlink
(code.js 848-855): trim; empty result means invalid (none); otherwise
prepend the default scheme when the scheme test fails. -/
def normalizeUrl (url : String) : Option String :=
  let t := jsTrim url
  if t.length == 0 then none
  else if matchesHttpScheme t then some t
  else some ("https://" ++ t)

/-! ## Node data model

Plain data carried by a Figma scene node, as read by the detection
heuristics: getRangeFontSize(0, 1) is modelled as the field fontSize0,
with none standing for a thrown exception (or a mixed range); hasWH
models the duck-typing test for the width and height properties. -/

structure NodeData where
  id : String
  ntype : String
  name : String
  opacity : ℚ
  fontSize0 : Option ℚ
  characters : String
  x : ℚ
  y : ℚ
  width : ℚ
  height : ℚ
  hasWH : Bool
deriving DecidableEq, Repr

/-- The recognition shape shared by findOriginalNodeId (code.js 244-254,
273-276): a zero-opacity TEXT node whose first-character font size is 12
and whose first character is the filler character. A thrown
getRangeFontSize (fontSize0 = none) fails the test. -/
def isHiddenLinkText (c : NodeData) : Bool :=
  c.ntype == "TEXT" && c.opacity == 0 &&
    (match c.fontSize0 with
     | some fs => fs == 12 && c.characters.length > 0 &&
         c.characters.data.head? == some 'x'
     | none => false)

/-! ## Overlay Detector: geometric fallback of findExistingHyperlink
(code.js 330-386) -/

/-- Whether the sibling at hand is accepted by the fallback loop body of
findExistingHyperlink (code.js 341-379): recognition shape first, then
the container-shape or tolerance tests. -/
def siblingMatch (node s : NodeData) (isGrouped : Bool) (numChildren : ℕ) : Bool :=
  s.ntype == "TEXT" && s.opacity == 0 &&
    (match s.fontSize0 with
     | none => false
     | some fs =>
       fs == 12 && s.characters.length > 0 && s.characters.data.head? == some 'x' &&
         (if isGrouped then
            if numChildren == 2 then true
            else if node.hasWH then
              decide (|s.width - node.width| < 50) &&
                decide (|s.height - node.height| < 50)
            else true
          else
            (decide (|s.x - node.x| < 1) && decide (|s.y - node.y| < 1)) &&
              (node.hasWH && decide (|s.width - node.width| < 1) &&
                decide (|s.height - node.height| < 1))))

/-- The sibling loop of code.js 338-384: walk the children in order,
skip the index of the node itself, return the first accepted sibling. -/
def findSiblingLoop (node : NodeData) (isGrouped : Bool) (numChildren nodeIndex : ℕ) :
    ℕ → List NodeData → Option NodeData
  | _, [] => none
  | i, s :: rest =>
    if i == nodeIndex then findSiblingLoop node isGrouped numChildren nodeIndex (i + 1) rest
    else if siblingMatch node s isGrouped numChildren then some s
    else findSiblingLoop node isGrouped numChildren nodeIndex (i + 1) rest

/-- The geometric fallback of findExistingHyperlink (code.js 330-386),
run when the storage fast path yields nothing: node.parent is given by
its type and children. -/
def findExistingHyperlinkFallback (node : NodeData) (ptype : String)
    (children : List NodeData) : Option NodeData :=
  let nodeIndex := children.findIdx (fun c => c.id == node.id)
  findSiblingLoop node (ptype == "GROUP") children.length nodeIndex 0 children

/-- Acceptance condition as claim C3 words it, with the tolerance bands
read as strict bounds (the amendment the code forces): case (i) a
two-child group, case (ii) a larger group with both dimension gaps below
50, case (iii) an ungrouped parent with all four gaps below 1. -/
def claimSiblingMatchStrict (n s : NodeData) (parentIsGroup : Bool) (numChildren : ℕ) : Bool :=
  s.ntype == "TEXT" && s.opacity == 0 && s.fontSize0 == some 12 &&
    s.characters.data.head? == some 'x' &&
    (if parentIsGroup then
       if numChildren == 2 then true
       else decide (|s.width - n.width| < 50) && decide (|s.height - n.height| < 50)
     else
       decide (|s.x - n.x| < 1) && decide (|s.y - n.y| < 1) &&
         decide (|s.width - n.width| < 1) && decide (|s.height - n.height| < 1))

/-- Acceptance condition exactly as claim C3 states it, with inclusive
("at most") tolerance bands. -/
def claimSiblingMatchLe (n s : NodeData) (parentIsGroup : Bool) (numChildren : ℕ) : Bool :=
  s.ntype == "TEXT" && s.opacity == 0 && s.fontSize0 == some 12 &&
    s.characters.data.head? == some 'x' &&
    (if parentIsGroup then
       if numChildren == 2 then true
       else decide (|s.width - n.width| ≤ 50) && decide (|s.height - n.height| ≤ 50)
     else
       decide (|s.x - n.x| ≤ 1) && decide (|s.y - n.y| ≤ 1) &&
         decide (|s.width - n.width| ≤ 1) && decide (|s.height - n.height| ≤ 1))

/-- First sibling in child order satisfying the claim C3 acceptance
condition (strict variant), skipping the node itself. -/
def claimFirstOverlaySibling (n : NodeData) (parentIsGroup : Bool)
    (numChildren nodeIndex : ℕ) : ℕ → List NodeData → Option NodeData
  | _, [] => none
  | i, s :: rest =>
    if i == nodeIndex then
      claimFirstOverlaySibling n parentIsGroup numChildren nodeIndex (i + 1) rest
    else if claimSiblingMatchStrict n s parentIsGroup numChildren then some s
    else claimFirstOverlaySibling n parentIsGroup numChildren nodeIndex (i + 1) rest

/-! ## Link Registry: persisted mapping modelled as an insertion-ordered
association list, mirroring a JavaScript object -/

/-- One stored link record (code.js 150-160 and 430-440). -/
structure LinkRecord where
  url : String
  nodeName : String
  textNodeId : String
  groupId : Option String
  fileId : String
  fileName : String
  pageId : Option String
  pageName : Option String
  timestamp : ℕ
deriving DecidableEq, Repr

/-- The persisted links object: key order is JavaScript insertion order. -/
abbrev Links : Type := List (String × LinkRecord)

/-- links[k] read access. -/
def lookupLinks (m : Links) (k : String) : Option LinkRecord :=
  (List.find? (fun p => p.1 == k) m).map (·.2)

/-- links[k] = v assignment: update in place when the key exists,
append otherwise (JavaScript object semantics). -/
def setKey (m : Links) (k : String) (v : LinkRecord) : Links :=
  if m.any (fun p => p.1 == k) then
    m.map (fun p => if p.1 == k then (k, v) else p)
  else m ++ [(k, v)]

/-- delete links[k] (code.js 168). -/
def eraseKey (m : Links) (k : String) : Links :=
  m.filter (fun p => !(p.1 == k))

/-- Object.assign(target, source) (code.js 463): write every source
entry over the target, in source order. -/
def objectAssign (m src : Links) : Links :=
  src.foldl (fun acc p => setKey acc p.1 p.2) m

/-! ## Indirection Resolver: findOriginalNodeId (code.js 236-300) -/

/-- findOriginalNodeId(node, links).  The children property of the node
(none when absent) and the parent (its type and children) are passed
explicitly. Branch 1: a GROUP holding the hidden hyperlink text child
resolves to the id of the first other child.  Branch 2: the hidden text
node itself, inside a GROUP parent, resolves to the first sibling with a
different id.  Branch 3: reverse lookup of groupId or textNodeId over
the stored entries, in insertion order. -/
def findOriginalNodeId (node : NodeData) (nodeChildren : Option (List NodeData))
    (parent : Option (String × List NodeData)) (links : Links) : Option String :=
  let fromGroup : Option String :=
    if node.ntype == "GROUP" then
      match nodeChildren with
      | some cs =>
        match cs.find? isHiddenLinkText with
        | some tn =>
          match cs.find? (fun c => !(c.id == tn.id)) with
          | some orig => some orig.id
          | none => none
        | none => none
      | none => none
    else none
  match fromGroup with
  | some r => some r
  | none =>
    let fromText : Option String :=
      if isHiddenLinkText node then
        match parent with
        | some (ptype, siblings) =>
          if ptype == "GROUP" then
            match siblings.find? (fun s => !(s.id == node.id)) with
            | some sib => some sib.id
            | none => none
          else none
        | none => none
      else none
    match fromText with
    | some r => some r
    | none =>
      (links.find? (fun p => p.2.groupId == some node.id || p.2.textNodeId == node.id)).map (·.1)

/-! ## Selection/Command Controller: the guard structure of addHyperlink
(code.js 795-888) -/

/-- The msg.url value received from the UI: a string or any non-string
JavaScript value. -/
inductive JsVal where
  | str (s : String)
  | nonString
deriving DecidableEq, Repr

/-- addHyperlink(url) (code.js 795-888) abstracted over the state type σ
(document plus persisted registry) and over the per-target processing
body (code.js 857-883: detect existing overlay, then update or create,
then write storage).  Before any processing the code checks, in order:
empty selection (line 800), non-string url (line 842, where an empty
string is also falsy), empty trimmed url (line 849); each check only
notifies and returns.  The second component is the normalized URL passed
to every target, none when no processing happened.  The indirection
resolution between the selection check and the URL checks only reads the
document and is dropped here. -/
def addHyperlink {σ : Type} (process : σ → String → σ) (selection : List NodeData)
    (url : JsVal) (st : σ) : σ × Option String :=
  if selection.length == 0 then (st, none)
  else
    match url with
    | .nonString => (st, none)
    | .str s =>
      if s.length == 0 then (st, none)
      else
        match normalizeUrl s with
        | none => (st, none)
        | some u => (selection.foldl (fun acc _ => process acc u) st, some u)

/-! ## Document trees

A loaded Figma document is a list of page trees.  Only the fields the
deletion and scan paths read are kept: id, type, name and children
(a TEXT node simply has an empty children list, which makes every
guard of the form children-property-present behave identically). -/

inductive FNode where
  | mk (id ntype name : String) (children : List FNode)

def FNode.id : FNode → String
  | .mk i _ _ _ => i

def FNode.ntype : FNode → String
  | .mk _ t _ _ => t

def FNode.name : FNode → String
  | .mk _ _ n _ => n

def FNode.children : FNode → List FNode
  | .mk _ _ _ cs => cs

mutual
def nodeSize : FNode → ℕ
  | .mk _ _ _ cs => 1 + forestSize cs
def forestSize : List FNode → ℕ
  | [] => 0
  | n :: rest => nodeSize n + forestSize rest
end

/-- findNodeById (code.js 71-86) run on a worklist: check the head node,
then its children before the remaining worklist — the same preorder as
the recursive JavaScript search, returning the first id match. -/
def findInForest (t : String) : List FNode → Option FNode
  | [] => none
  | n :: rest => if n.id == t then some n else findInForest t (n.children ++ rest)
termination_by l => forestSize l
decreasing_by
  have h : ∀ a b : List FNode, forestSize (a ++ b) = forestSize a + forestSize b := by
    intro a b
    induction a with
    | nil => simp [forestSize]
    | cons x xs ih => simp [forestSize, ih]; omega
  cases n with
  | mk i ty nm cs => simp [forestSize, nodeSize, h, FNode.children]

/-- findNodeById(node, targetId) (code.js 71-86). -/
def findNodeById (n : FNode) (t : String) : Option FNode :=
  findInForest t [n]

/-- Every node of a forest in preorder. -/
def forestNodes : List FNode → List FNode
  | [] => []
  | n :: rest => n :: forestNodes (n.children ++ rest)
termination_by l => forestSize l
decreasing_by
  have h : ∀ a b : List FNode, forestSize (a ++ b) = forestSize a + forestSize b := by
    intro a b
    induction a with
    | nil => simp [forestSize]
    | cons x xs ih => simp [forestSize, ih]; omega
  cases n with
  | mk i ty nm cs => simp [forestSize, nodeSize, h, FNode.children]

/- node.remove(): delete the node carrying the given id (Figma ids are
unique in a document) together with its subtree. -/
mutual
def removeFromNode (t : String) : FNode → FNode
  | .mk i ty nm cs => .mk i ty nm (removeFromForest t cs)
def removeFromForest (t : String) : List FNode → List FNode
  | [] => []
  | n :: rest =>
    if n.id == t then rest else removeFromNode t n :: removeFromForest t rest
end

/- The net document effect of groupParent.insertChild(groupIndex,
originalNode) followed by group.remove() (code.js 962-974): the group is
replaced, at its own position in its parent, by the original child. -/
mutual
def replaceInNode (gid : String) (orig : FNode) : FNode → FNode
  | .mk i ty nm cs => .mk i ty nm (replaceInForest gid orig cs)
def replaceInForest (gid : String) (orig : FNode) : List FNode → List FNode
  | [] => []
  | n :: rest =>
    if n.id == gid then orig :: rest
    else replaceInNode gid orig n :: replaceInForest gid orig rest
end

/-! ## deleteLink (code.js 891-1015) -/

/-- Outcome of deleteLink: the document pages, the stored links, and
whether the success notification was reached (false only for the
record-missing early return). -/
structure DeleteResult where
  pages : List FNode
  links : Links
  success : Bool

/-- The page loop of code.js 906-922: per page, resolve the recorded
group id (when truthy) and text node id (when truthy) and stop at the
first page where either is found.  Page loading is modelled as always
succeeding. -/
def searchPages (gid? : Option String) (tid : String) :
    List FNode → Option FNode × Option FNode
  | [] => (none, none)
  | p :: rest =>
    let g := match gid? with
      | some gid => if gid == "" then none else findNodeById p gid
      | none => none
    let t := if tid == "" then none else findNodeById p tid
    if g.isSome || t.isSome then (g, t) else searchPages gid? tid rest

/-- deleteLink(nodeId) (code.js 891-1015).  When the record is missing
only a notification happens.  Otherwise the group and text nodes are
searched across pages; the text node, if present, is removed; when both
group and its non-text child exist, the group is ungrouped (the original
child replaces it in the group parent, the group and any remaining
children disappear); in all cases the record is deleted from storage and
success is reported.  The originalNode reference is live across the text
removal, hence the re-resolution against the updated forest. -/
def deleteLink (pages : List FNode) (links : Links) (nodeId : String) : DeleteResult :=
  match lookupLinks links nodeId with
  | none => ⟨pages, links, false⟩
  | some linkData =>
    let gt := searchPages linkData.groupId linkData.textNodeId pages
    let original? := match gt.1 with
      | some g => g.children.find? (fun (c : FNode) => !(c.id == linkData.textNodeId))
      | none => none
    let pages1 := match gt.2 with
      | some t => removeFromForest t.id pages
      | none => pages
    let pages2 := match gt.1, original? with
      | some g, some o =>
        let oLive := (findInForest o.id pages1).getD o
        replaceInForest g.id oLive pages1
      | _, _ => pages1
    ⟨pages2, eraseKey links nodeId, true⟩

/-! ## Document Scanner: scanPage (code.js 390-468) -/

/-- What findExistingHyperlink plus getUrlFromTextNode yield for one
scanned node (code.js 417-424): the overlay text node id, the id of its
GROUP parent when it has one, and the hyperlink value when readable. -/
structure DetectResult where
  textNodeId : String
  groupId : Option String
  url : Option String

/-- The timestamp rule of code.js 439: keep the stored timestamp for
this id when the record exists and the timestamp is truthy (nonzero),
otherwise take Date.now(). -/
def scanTimestamp (links : Links) (k : String) (now : ℕ) : ℕ :=
  match lookupLinks links k with
  | some pr => if pr.timestamp == 0 then now else pr.timestamp
  | none => now

/-- The record built for a discovered node (code.js 430-440). -/
def mkScanRecord (links : Links) (fileHash rootName pageId pageName : String)
    (now : ℕ) (n : FNode) (dr : DetectResult) (u : String) : LinkRecord :=
  { url := u
    nodeName := if n.name == "" then "Unnamed" else n.name
    textNodeId := dr.textNodeId
    groupId := dr.groupId
    fileId := fileHash
    fileName := rootName
    pageId := some pageId
    pageName := some pageName
    timestamp := scanTimestamp links n.id now }

/-- The body of scanNode for one node (code.js 416-441): when the
detector finds an overlay with a readable URL, write the built record
into foundLinks under the node id; otherwise leave foundLinks alone. -/
def scanStep (d : FNode → Option DetectResult) (links : Links)
    (fileHash rootName pageId pageName : String) (now : ℕ)
    (acc : Links) (n : FNode) : Links :=
  match d n with
  | some dr =>
    match dr.url with
    | some u =>
      setKey acc n.id (mkScanRecord links fileHash rootName pageId pageName now n dr u)
    | none => acc
  | none => acc

/-- The recursive scanNode traversal (code.js 415-450) over a preorder
worklist, accumulating foundLinks.  The detector argument stands for
findExistingHyperlink composed with getUrlFromTextNode and the group
derivation on the scanned document. -/
def scanWorklist (d : FNode → Option DetectResult) (links : Links)
    (fileHash rootName pageId pageName : String) (now : ℕ) :
    Links → List FNode → Links
  | acc, [] => acc
  | acc, n :: rest =>
    scanWorklist d links fileHash rootName pageId pageName now
      (scanStep d links fileHash rootName pageId pageName now acc n)
      (n.children ++ rest)
termination_by _ l => forestSize l
decreasing_by
  have h : ∀ a b : List FNode, forestSize (a ++ b) = forestSize a + forestSize b := by
    intro a b
    induction a with
    | nil => simp [forestSize]
    | cons x xs ih => simp [forestSize, ih]; omega
  cases n with
  | mk i ty nm cs => simp [forestSize, nodeSize, h, FNode.children]

/-- The module-level scan bookkeeping (code.js 13-14) together with the
persisted storage for the current file. -/
structure ScanState where
  scannedPages : List String
  lastFileHash : Option String
  storage : Links

/-- scanPage(page) (code.js 390-468): reset the scanned-page cache when
the file hash changed; skip an already scanned page; otherwise traverse
the page, mark it scanned, and, only when something was found, write
Object.assign(allLinks, foundLinks) back to storage.  Page loading is
modelled as succeeding. -/
def scanPage (d : FNode → Option DetectResult) (fileHash rootName : String)
    (now : ℕ) (page : FNode) (st : ScanState) : ScanState :=
  let st1 := if st.lastFileHash == some fileHash then st
    else { st with scannedPages := [], lastFileHash := some fileHash }
  if st1.scannedPages.contains page.id then st1
  else
    let found := scanWorklist d st1.storage fileHash rootName page.id page.name now
      [] page.children
    let st2 := { st1 with scannedPages := st1.scannedPages ++ [page.id] }
    if found.length == 0 then st2
    else { st2 with storage := objectAssign st2.storage found }

/-! ## Overlay Synthesizer: the cleanup discipline of createHyperlink
(code.js 576-780) -/

/-- Outcome of one createHyperlink run: whether it succeeded and the
resulting document, given as the list of node ids present. -/
structure CreateRunResult where
  ok : Bool
  doc : List String
deriving DecidableEq, Repr

/-- createHyperlink(node, url) (code.js 576-780) reduced to its document
effects.  Dimension validation (586) and font acquisition (593-635) fail
before the text node exists.  figma.createText() (639) puts the fresh
overlay id tid into the document.  The subsequent fallible operations
are numbered: 0 font reload (643), 1 set the filler character (647),
2 set the font size (650), 3 fill the full character grid (722-729) with
4 its single-line fallback (733-734), 5 resize (739), 6 set the range
hyperlink (749), 7 group (760).  setRangeFontName failures are swallowed
internally (656-665) and cannot propagate.  The first failing operation
triggers the catch block (769-779): the created text node, which has a
parent from creation on, is removed and the error propagates. -/
def createHyperlinkRun (doc : List String) (tid gid : String)
    (validDims fontAvailable : Bool) (failsAt : ℕ → Bool) : CreateRunResult :=
  if !validDims then ⟨false, doc⟩
  else if !fontAvailable then ⟨false, doc⟩
  else
    let doc1 := doc ++ [tid]
    let cleanup := doc1.erase tid
    if failsAt 0 then ⟨false, cleanup⟩
    else if failsAt 1 then ⟨false, cleanup⟩
    else if failsAt 2 then ⟨false, cleanup⟩
    else if failsAt 3 && failsAt 4 then ⟨false, cleanup⟩
    else if failsAt 5 then ⟨false, cleanup⟩
    else if failsAt 6 then ⟨false, cleanup⟩
    else if failsAt 7 then ⟨false, cleanup⟩
    else ⟨true, doc1 ++ [gid]⟩

/-! ## Overlay Synthesizer: the character-grid sizing of createHyperlink
(code.js 685-714), in exact real arithmetic -/

/-- The proportional scale-down of code.js 701-707: when the uncapped
product exceeds 100000, multiply both dimensions by
Math.sqrt(100000 / totalChars) and take floors. -/
noncomputable def scaleDownGrid (c n : ℤ) : ℤ × ℤ :=
  if 100000 < c * n then
    (⌊(c : ℝ) * Real.sqrt (100000 / ((c : ℝ) * (n : ℝ)))⌋,
     ⌊(n : ℝ) * Real.sqrt (100000 / ((c : ℝ) * (n : ℝ)))⌋)
  else (c, n)

/-- The per-dimension clamps of code.js 709-714 applied after the
proportional scale-down. -/
noncomputable def capGrid (c n : ℤ) : ℤ × ℤ :=
  (min (scaleDownGrid c n).1 5000, min (scaleDownGrid c n).2 5000)

/-- The character-grid dimensions createHyperlink computes before
filling the overlay (code.js 697-714): charsPerLine =
Math.ceil((width / charWidth) * 1.5) + 10 and numLines =
Math.ceil((height / charHeight) * 0.5), then the caps. -/
noncomputable def gridDims (width height charWidth charHeight : ℝ) : ℤ × ℤ :=
  capGrid (⌈width / charWidth * 1.5⌉ + 10) (⌈height / charHeight * 0.5⌉)

/-! ## Concrete instances used by witnesses and counterexamples -/

/-- A plain rectangle: id n, size 100 by 40 at the origin. -/
def cRect : NodeData :=
  ⟨"n", "RECTANGLE", "Rect", 1, none, "", 0, 0, 100, 40, true⟩

/-- An overlay-shaped text sibling whose width differs from cRect by
exactly one unit. -/
def cOverlaySib : NodeData :=
  ⟨"s", "TEXT", "link", 0, some 12, "x", 0, 0, 101, 40, true⟩

/-- An original object that itself has the overlay recognition shape. -/
def cOrigBad : NodeData :=
  ⟨"o", "TEXT", "orig", 0, some 12, "xxx", 0, 0, 30, 10, true⟩

/-- The synthesized overlay text node paired with cOrigBad. -/
def cOverlayBad : NodeData :=
  ⟨"t", "TEXT", "ov", 0, some 12, "x", 0, 0, 30, 10, true⟩

/-- The group holding cOrigBad and cOverlayBad. -/
def cGroupBad : NodeData :=
  ⟨"g", "GROUP", "AnyLink: orig", 1, none, "", 0, 0, 30, 10, true⟩

/-- A group node for the claim C4 witness. -/
def cGroupW : NodeData :=
  ⟨"g", "GROUP", "AnyLink: Rect", 1, none, "", 0, 0, 10, 10, true⟩

/-- A rectangle original for the claim C4 witness. -/
def cOrigW : NodeData :=
  ⟨"o", "RECTANGLE", "Rect", 1, none, "", 0, 0, 10, 10, true⟩

/-- The overlay text for the claim C4 witness. -/
def cOverlayW : NodeData :=
  ⟨"t", "TEXT", "ov", 0, some 12, "x", 0, 0, 10, 10, true⟩

/-- An unrelated plain node for the claim C4 witness. -/
def cPlainW : NodeData :=
  ⟨"z", "RECTANGLE", "zz", 1, none, "", 0, 0, 1, 1, true⟩

/-- A stored record pointing to group g and text node t. -/
def cRecW : LinkRecord :=
  ⟨"https://example.com", "Rect", "t", some "g", "fh", "file", some "p", some "Page", 5⟩

/-- A stored record whose backing nodes g6 and t6 are gone. -/
def cRec6 : LinkRecord :=
  ⟨"https://a.example", "Rect", "t6", some "g6", "fh", "file", some "p6", some "Page", 5⟩

/-- A one-page document that contains neither g6 nor t6. -/
def cPages6 : List FNode :=
  [.mk "p6" "PAGE" "Page" [.mk "r" "RECT" "Rect" []]]

/-- Storage holding only the record for node r. -/
def cLinks6 : Links := [("r", cRec6)]

/-- A stored record with a zero (falsy) timestamp. -/
def cRec7 : LinkRecord :=
  ⟨"https://old.example", "Rect", "t", some "g", "h", "file", some "p", some "Page", 0⟩

/-- Scan state whose storage holds the zero-timestamp record for n. -/
def cSt7 : ScanState := ⟨[], some "h", [("n", cRec7)]⟩

/-- A page containing the single node n. -/
def cPage7 : FNode := .mk "p" "PAGE" "Page" [.mk "n" "RECT" "r" []]

/-- A detector that reports an overlay with a readable URL on node n. -/
def cDetect7 : FNode → Option DetectResult :=
  fun n => if n.id == "n" then some ⟨"t", some "g", some "https://new.example"⟩ else none

/-- A scan state with empty storage and an empty page cache. -/
def cStEmpty : ScanState := ⟨[], some "h", []⟩

/-- A page whose nodes trigger no detection. -/
def cPage10 : FNode := .mk "p" "PAGE" "Page" [.mk "c" "RECT" "r" []]

/-! ## Theorems -/

/-- Claim C1: for every add-link command whose URL string has a non-empty
trimmed form, the URL bound and stored is the trimmed string itself when
it already starts with the http or https scheme (case-insensitive), and
is the trimmed string with the default scheme prepended otherwise; in
particular example.com is stored as the https form; addHyperlink hands
exactly this normalized URL to every processed target. -/
theorem claim_C1 (u : String) (h : jsTrim u ≠ "") :
    (matchesHttpScheme (jsTrim u) = true → normalizeUrl u = some (jsTrim u)) ∧
    (matchesHttpScheme (jsTrim u) = false →
      normalizeUrl u = some ("https://" ++ jsTrim u)) ∧
    normalizeUrl "example.com" = some "https://example.com" ∧
    (∀ (σ : Type) (process : σ → String → σ) (sel : List NodeData) (st : σ),
      sel ≠ [] → (addHyperlink process sel (JsVal.str u) st).2 = normalizeUrl u) := by
  have hlen : ((jsTrim u).length == 0) = false := by
    cases hu : jsTrim u with
    | mk data =>
      cases data with
      | nil => exact absurd hu h
      | cons a l => simp [String.length, hu]
  refine ⟨?_, ?_, by decide, ?_⟩
  · intro hm
    simp [normalizeUrl, hlen, hm]
  · intro hm
    simp [normalizeUrl, hlen, hm]
  · intro σ process sel st hsel
    have hsl : (sel.length == 0) = false := by
      simp [List.length_eq_zero, hsel]
    have hul : (u.length == 0) = false := by
      cases hu : u with
      | mk data =>
        cases data with
        | nil =>
          exfalso
          apply h
          rw [hu] at h ⊢
          rfl
        | cons a l => simp [String.length, hu]
    simp only [addHyperlink, hsl, Bool.false_eq_true, if_false, hul]
    cases hn : normalizeUrl u with
    | none =>
      exfalso
      rcases hm : matchesHttpScheme (jsTrim u) <;>
        simp [normalizeUrl, hlen, hm] at hn
    | some v => simp

/-- Claim C1 witness: the hypotheses and conclusion at the concrete
input string with surrounding spaces and no scheme. -/
theorem claim_C1_witness :
    jsTrim " example.com " ≠ "" ∧
    ((matchesHttpScheme (jsTrim " example.com ") = true →
        normalizeUrl " example.com " = some (jsTrim " example.com ")) ∧
      (matchesHttpScheme (jsTrim " example.com ") = false →
        normalizeUrl " example.com " = some ("https://" ++ jsTrim " example.com ")) ∧
      normalizeUrl "example.com" = some "https://example.com" ∧
      (∀ (σ : Type) (process : σ → String → σ) (sel : List NodeData) (st : σ),
        sel ≠ [] →
          (addHyperlink process sel (JsVal.str " example.com ") st).2 =
            normalizeUrl " example.com ")) :=
  ⟨by decide, claim_C1 " example.com " (by decide)⟩

/-- Claim C9: when the selection is empty, the URL argument is not a
string, or its trimmed form is empty, addHyperlink only reports and
returns: the state (document plus persisted registry) is unchanged and
no target is processed, for every possible per-target processing body. -/
theorem claim_C9 {σ : Type} (process : σ → String → σ) (sel : List NodeData)
    (url : JsVal) (st : σ)
    (h : sel = [] ∨ url = JsVal.nonString ∨ ∃ s, url = JsVal.str s ∧ jsTrim s = "") :
    addHyperlink process sel url st = (st, none) := by
  rcases h with h | h | ⟨s, rfl, hs⟩
  · subst h
    rfl
  · subst h
    cases sel <;> rfl
  · rcases hsel : sel.length == 0 with _ | _
    · have hul : normalizeUrl s = none := by
        simp [normalizeUrl, hs]
      simp only [addHyperlink, hsel, Bool.false_eq_true, if_false]
      cases hl : s.length == 0 with
      | true => rfl
      | false => simp [hul]
    · simp [addHyperlink, hsel]

/-- Claim C9 witness: an empty selection at concrete inputs leaves the
state untouched. -/
theorem claim_C9_witness :
    (([] : List NodeData) = [] ∨ JsVal.str "x" = JsVal.nonString ∨
      ∃ s, JsVal.str "x" = JsVal.str s ∧ jsTrim s = "") ∧
    addHyperlink (fun (a : ℕ) _ => a + 1) [] (JsVal.str "x") 3 = (3, none) :=
  ⟨Or.inl rfl, claim_C9 (fun (a : ℕ) _ => a + 1) [] (JsVal.str "x") 3 (Or.inl rfl)⟩

/-- Claim C5: whenever a createHyperlink run fails, at any of its
fallible operations after the overlay text node was created, the text
node is removed again, so the resulting document equals the original one
(no orphan overlay remains); the overlay id is fresh, as ids of newly
created nodes are. -/
theorem claim_C5 (doc : List String) (tid gid : String) (vd fa : Bool) (f : ℕ → Bool)
    (hfresh : tid ∉ doc)
    (hfail : (createHyperlinkRun doc tid gid vd fa f).ok = false) :
    (createHyperlinkRun doc tid gid vd fa f).doc = doc := by
  have hcl : (doc ++ [tid]).erase tid = doc := by
    rw [List.erase_append_right _ hfresh]
    simp
  unfold createHyperlinkRun at hfail ⊢
  split_ifs at hfail <;> simp_all

/-- Claim C5 witness: a run failing at the font reload right after the
overlay was created hands back the original document. -/
theorem claim_C5_witness :
    ("t" ∉ ["a"]) ∧
    (createHyperlinkRun ["a"] "t" "g" true true (fun i => i == 0)).ok = false ∧
    (createHyperlinkRun ["a"] "t" "g" true true (fun i => i == 0)).doc = ["a"] :=
  ⟨by decide, by decide,
    claim_C5 ["a"] "t" "g" true true (fun i => i == 0) (by decide) (by decide)⟩

/-- The cap discipline of code.js 701-714 for any nonnegative integer
grid dimensions: after the proportional scale-down and the clamps, both
dimensions stay at most 5000 and the product stays at most 100000. -/
theorem capGrid_bounds (c n : ℤ) (hc : 0 ≤ c) (hn : 0 ≤ n) :
    (capGrid c n).1 ≤ 5000 ∧ (capGrid c n).2 ≤ 5000 ∧
      (capGrid c n).1 * (capGrid c n).2 ≤ 100000 := by
  unfold capGrid scaleDownGrid
  by_cases hbig : 100000 < c * n
  · simp only [hbig, if_true]
    have hprod : (0 : ℝ) < (c : ℝ) * (n : ℝ) := by
      have : (0 : ℤ) < c * n := lt_trans (by norm_num) hbig
      exact_mod_cast this
    set s := Real.sqrt (100000 / ((c : ℝ) * (n : ℝ))) with hs
    have hs0 : 0 ≤ s := Real.sqrt_nonneg _
    have hcs : (0 : ℝ) ≤ (c : ℝ) * s := mul_nonneg (by exact_mod_cast hc) hs0
    have hns : (0 : ℝ) ≤ (n : ℝ) * s := mul_nonneg (by exact_mod_cast hn) hs0
    have hc0 : (0 : ℤ) ≤ ⌊(c : ℝ) * s⌋ := Int.le_floor.mpr (by exact_mod_cast hcs)
    have hn0 : (0 : ℤ) ≤ ⌊(n : ℝ) * s⌋ := Int.le_floor.mpr (by exact_mod_cast hns)
    have hsq : s ^ 2 = 100000 / ((c : ℝ) * (n : ℝ)) :=
      Real.sq_sqrt (div_nonneg (by norm_num) hprod.le)
    have hmain : (⌊(c : ℝ) * s⌋ : ℤ) * ⌊(n : ℝ) * s⌋ ≤ 100000 := by
      have h1 : ((⌊(c : ℝ) * s⌋ : ℝ)) * (⌊(n : ℝ) * s⌋ : ℝ) ≤ ((c : ℝ) * s) * ((n : ℝ) * s) := by
        apply mul_le_mul (Int.floor_le _) (Int.floor_le _) _ hcs
        exact_mod_cast hn0
      have h2 : ((c : ℝ) * s) * ((n : ℝ) * s) = ((c : ℝ) * (n : ℝ)) * s ^ 2 := by ring
      have h3 : ((c : ℝ) * (n : ℝ)) * (100000 / ((c : ℝ) * (n : ℝ))) = 100000 := by
        field_simp
      have : ((⌊(c : ℝ) * s⌋ : ℝ)) * (⌊(n : ℝ) * s⌋ : ℝ) ≤ 100000 := by
        calc ((⌊(c : ℝ) * s⌋ : ℝ)) * (⌊(n : ℝ) * s⌋ : ℝ) ≤ ((c : ℝ) * s) * ((n : ℝ) * s) := h1
          _ = ((c : ℝ) * (n : ℝ)) * s ^ 2 := h2
          _ = 100000 := by rw [hsq, h3]
      exact_mod_cast this
    refine ⟨min_le_right _ _, min_le_right _ _, ?_⟩
    calc min ⌊(c : ℝ) * s⌋ 5000 * min ⌊(n : ℝ) * s⌋ 5000
        ≤ ⌊(c : ℝ) * s⌋ * ⌊(n : ℝ) * s⌋ := by
          apply mul_le_mul (min_le_left _ _) (min_le_left _ _)
            (le_min hn0 (by norm_num)) hc0
      _ ≤ 100000 := hmain
  · simp only [hbig, if_false]
    refine ⟨min_le_right _ _, min_le_right _ _, ?_⟩
    calc min c 5000 * min n 5000 ≤ c * n := by
          apply mul_le_mul (min_le_left _ _) (min_le_left _ _)
            (le_min hn (by norm_num)) hc
      _ ≤ 100000 := not_lt.mp hbig

/-- Claim C2: for every object with finite positive width and height and
every positive measured character width and height, the character-grid
dimensions createHyperlink computes satisfy charsPerLine at most 5000,
numLines at most 5000, and their product at most 100000. -/
theorem claim_C2 (w h cw ch : ℝ) (hw : 0 < w) (hh : 0 < h)
    (hcw : 0 < cw) (hch : 0 < ch) :
    (gridDims w h cw ch).1 ≤ 5000 ∧ (gridDims w h cw ch).2 ≤ 5000 ∧
      (gridDims w h cw ch).1 * (gridDims w h cw ch).2 ≤ 100000 := by
  unfold gridDims
  apply capGrid_bounds
  · have h1 : (0 : ℤ) ≤ ⌈w / cw * 1.5⌉ := Int.ceil_nonneg (by positivity)
    omega
  · exact Int.ceil_nonneg (by positivity)

/-- Claim C2 witness: the hypotheses and the capped grid at a concrete
200 by 100 object with a 7 by 13 measured character. -/
theorem claim_C2_witness :
    (0 : ℝ) < 200 ∧ (0 : ℝ) < 100 ∧ (0 : ℝ) < 7 ∧ (0 : ℝ) < 13 ∧
    ((gridDims 200 100 7 13).1 ≤ 5000 ∧ (gridDims 200 100 7 13).2 ≤ 5000 ∧
      (gridDims 200 100 7 13).1 * (gridDims 200 100 7 13).2 ≤ 100000) :=
  ⟨by norm_num, by norm_num, by norm_num, by norm_num,
    claim_C2 200 100 7 13 (by norm_num) (by norm_num) (by norm_num) (by norm_num)⟩

/-- The loop body of the geometric fallback agrees with the claim C3
acceptance condition (strict variant) whenever the scanned-for node has
width and height. -/
theorem siblingMatch_eq_claim (n s : NodeData) (g : Bool) (nc : ℕ)
    (h : n.hasWH = true) :
    siblingMatch n s g nc = claimSiblingMatchStrict n s g nc := by
  unfold siblingMatch claimSiblingMatchStrict
  cases hfs : s.fontSize0 with
  | none => simp
  | some fs =>
    cases hd : s.characters.data with
    | nil => simp [hd]
    | cons a l =>
      have hlen : (0 < s.characters.length) := by
        simp [String.length, hd]
      cases g <;>
        simp [h, hd, hlen, Bool.and_assoc, Bool.and_left_comm, Bool.and_comm]

/-- The sibling loop equals the first-match search over the claim C3
acceptance condition, pointwise over the start index. -/
theorem findSiblingLoop_eq_claim (node : NodeData) (g : Bool) (nc ni : ℕ)
    (h : node.hasWH = true) :
    ∀ (i : ℕ) (l : List NodeData),
      findSiblingLoop node g nc ni i l = claimFirstOverlaySibling node g nc ni i l := by
  intro i l
  induction l generalizing i with
  | nil => rfl
  | cons s rest ih =>
    unfold findSiblingLoop claimFirstOverlaySibling
    rw [siblingMatch_eq_claim node s g nc h]
    by_cases hi : i == ni <;> simp [hi, ih]

/-- Claim C3 (amended: the tolerance bands are strict, below 50 and
below 1, not at most): for every node with width and height, the
geometric fallback returns exactly the first sibling in child order that
is a zero-opacity font-size-12 first-character-x text node and passes
the two-child-group, grouped-tolerance or ungrouped-tolerance test;
absence yields none. -/
theorem claim_C3 (node : NodeData) (ptype : String) (children : List NodeData)
    (h : node.hasWH = true) :
    findExistingHyperlinkFallback node ptype children =
      claimFirstOverlaySibling node (ptype == "GROUP") children.length
        (children.findIdx (fun c => c.id == node.id)) 0 children := by
  unfold findExistingHyperlinkFallback
  exact findSiblingLoop_eq_claim node _ _ _ h 0 children

/-- Claim C3 witness: the hypothesis and the characterization at a
concrete rectangle with one overlay-shaped sibling. -/
theorem claim_C3_witness :
    cRect.hasWH = true ∧
    findExistingHyperlinkFallback cRect "FRAME" [cRect, cOverlaySib] =
      claimFirstOverlaySibling cRect ("FRAME" == "GROUP") [cRect, cOverlaySib].length
        ([cRect, cOverlaySib].findIdx (fun c => c.id == cRect.id)) 0
        [cRect, cOverlaySib] :=
  ⟨rfl, claim_C3 cRect "FRAME" [cRect, cOverlaySib] rfl⟩

/-- Claim C3 counterexample: with an ungrouped parent and a sibling
whose width differs by exactly one unit, the sibling satisfies the
claimed at-most-1 tolerance, yet the code returns none — the code
tolerances are strict. -/
theorem claim_C3_counterexample :
    findExistingHyperlinkFallback cRect "FRAME" [cRect, cOverlaySib] = none ∧
    claimSiblingMatchLe cRect cOverlaySib ("FRAME" == "GROUP")
      [cRect, cOverlaySib].length = true := by
  constructor
  · simp [findExistingHyperlinkFallback, findSiblingLoop, siblingMatch,
      List.findIdx, List.findIdx.go, cRect, cOverlaySib]
    norm_num
  · simp [claimSiblingMatchLe, cRect, cOverlaySib]
    norm_num

/-- A node with the hidden-hyperlink-text shape is a TEXT node. -/
theorem hiddenLinkText_ntype {c : NodeData} (h : isHiddenLinkText c = true) :
    c.ntype = "TEXT" := by
  unfold isHiddenLinkText at h
  simp only [Bool.and_eq_true, beq_iff_eq] at h
  exact h.1.1

/-- Claim C4 (amended: for the group direction the original object must
not itself carry the overlay recognition shape, else the resolver picks
it as the overlay and returns the other child): for a synthesized pair,
the resolver returns the original id both on the group and on the
overlay text node, and a node matching neither construct and referenced
by no stored record resolves to none. -/
theorem claim_C4 (g O T n : NodeData) (par par2 : Option (String × List NodeData))
    (cn : Option (List NodeData)) (links links2 : Links)
    (hg : g.ntype = "GROUP")
    (hT : isHiddenLinkText T = true)
    (hO : isHiddenLinkText O = false)
    (hne : (O.id == T.id) = false)
    (hn1 : (n.ntype == "GROUP") = false)
    (hn2 : isHiddenLinkText n = false)
    (hn3 : ∀ p ∈ links2,
      ((p.2.groupId == some n.id) || (p.2.textNodeId == n.id)) = false) :
    findOriginalNodeId g (some [O, T]) par links = some O.id ∧
    findOriginalNodeId T none (some ("GROUP", [O, T])) links = some O.id ∧
    findOriginalNodeId n cn par2 links2 = none := by
  refine ⟨?_, ?_, ?_⟩
  · simp [findOriginalNodeId, hg, List.find?, hO, hT, hne]
  · have hTty := hiddenLinkText_ntype hT
    simp [findOriginalNodeId, hTty, hT, hne, List.find?]
  · have hfind : List.find?
        (fun p => p.2.groupId == some n.id || p.2.textNodeId == n.id) links2 = none := by
      rw [List.find?_eq_none]
      intro x hx
      simp [hn3 x hx]
    simp [findOriginalNodeId, hn1, hn2, hfind]

/-- Claim C4 witness: the hypotheses and the three resolutions at a
concrete synthesized pair, overlay and unrelated node. -/
theorem claim_C4_witness :
    (cGroupW.ntype = "GROUP" ∧ isHiddenLinkText cOverlayW = true ∧
      isHiddenLinkText cOrigW = false ∧ (cOrigW.id == cOverlayW.id) = false ∧
      (cPlainW.ntype == "GROUP") = false ∧ isHiddenLinkText cPlainW = false ∧
      ∀ p ∈ [("o", cRecW)],
        ((p.2.groupId == some cPlainW.id) || (p.2.textNodeId == cPlainW.id)) = false) ∧
    (findOriginalNodeId cGroupW (some [cOrigW, cOverlayW]) none [] = some cOrigW.id ∧
      findOriginalNodeId cOverlayW none (some ("GROUP", [cOrigW, cOverlayW])) [] =
        some cOrigW.id ∧
      findOriginalNodeId cPlainW (some []) none [("o", cRecW)] = none) :=
  ⟨⟨by decide, by decide, by decide, by decide, by decide, by decide, by decide⟩,
    claim_C4 cGroupW cOrigW cOverlayW cPlainW none none (some []) [] [("o", cRecW)]
      (by decide) (by decide) (by decide) (by decide) (by decide) (by decide) (by decide)⟩

/-- Claim C4 counterexample: when the original object itself has the
overlay recognition shape, the resolver applied to the group returns the
overlay id, not the original id — the claim fails as stated for such
synthesized pairs. -/
theorem claim_C4_counterexample :
    findOriginalNodeId cGroupBad (some [cOrigBad, cOverlayBad]) none [] =
      some cOverlayBad.id ∧
    (cOverlayBad.id == cOrigBad.id) = false := by
  decide

/-- The page loop finds nothing when the recorded ids exist on no page. -/
theorem searchPages_none (gid tid : String) (pages : List FNode)
    (hgne : gid ≠ "") (htne : tid ≠ "")
    (hg : ∀ p ∈ pages, findNodeById p gid = none)
    (ht : ∀ p ∈ pages, findNodeById p tid = none) :
    searchPages (some gid) tid pages = (none, none) := by
  induction pages with
  | nil => rfl
  | cons p rest ih =>
    have hg1 := hg p (List.mem_cons_self p rest)
    have ht1 := ht p (List.mem_cons_self p rest)
    unfold searchPages
    simp only [hg1, ht1, beq_iff_eq, hgne, htne, if_false, Option.isSome_none,
      Bool.or_self, Bool.false_eq_true]
    exact ih (fun q hq => hg q (List.mem_cons_of_mem p hq))
      (fun q hq => ht q (List.mem_cons_of_mem p hq))

/-- Claim C6: deleting a link whose record exists in storage but whose
recorded group and text nodes exist on no page raises no error, performs
no document teardown, still removes the record from storage and reports
success. -/
theorem claim_C6 (pages : List FNode) (links : Links) (nodeId gid : String)
    (r : LinkRecord)
    (hrec : lookupLinks links nodeId = some r)
    (hgid : r.groupId = some gid) (hgne : gid ≠ "") (htne : r.textNodeId ≠ "")
    (hg : ∀ p ∈ pages, findNodeById p gid = none)
    (ht : ∀ p ∈ pages, findNodeById p r.textNodeId = none) :
    deleteLink pages links nodeId = ⟨pages, eraseKey links nodeId, true⟩ := by
  have hsp := searchPages_none gid r.textNodeId pages hgne htne hg ht
  unfold deleteLink
  rw [hrec]
  simp [hgid, hsp]

/-- Claim C6 witness: the hypotheses and conclusion on a concrete
document that no longer contains the recorded nodes g6 and t6. -/
theorem claim_C6_witness :
    lookupLinks cLinks6 "r" = some cRec6 ∧
    cRec6.groupId = some "g6" ∧ "g6" ≠ "" ∧ cRec6.textNodeId ≠ "" ∧
    (∀ p ∈ cPages6, findNodeById p "g6" = none) ∧
    (∀ p ∈ cPages6, findNodeById p cRec6.textNodeId = none) ∧
    deleteLink cPages6 cLinks6 "r" = ⟨cPages6, eraseKey cLinks6 "r", true⟩ := by
  have hg : ∀ p ∈ cPages6, findNodeById p "g6" = none := by
    intro p hp
    simp only [cPages6, List.mem_singleton] at hp
    subst hp
    simp [findNodeById, findInForest, FNode.id, FNode.children]
  have ht : ∀ p ∈ cPages6, findNodeById p cRec6.textNodeId = none := by
    intro p hp
    simp only [cPages6, List.mem_singleton] at hp
    subst hp
    simp [findNodeById, findInForest, FNode.id, FNode.children, cRec6]
  exact ⟨rfl, rfl, by decide, by decide, hg, ht,
    claim_C6 cPages6 cLinks6 "r" "g6" cRec6 rfl rfl (by decide) (by decide) hg ht⟩

/-- Claim C8: scanning the same page twice with the same file hash is
idempotent — the second scan returns the state of the first unchanged
(the page is in the scanned-page cache, which only a fingerprint change
clears), so the registry projection is identical with no duplicate or
drifting timestamps. -/
theorem claim_C8 (d : FNode → Option DetectResult) (h rn : String) (now1 now2 : ℕ)
    (page : FNode) (st : ScanState) :
    scanPage d h rn now2 page (scanPage d h rn now1 page st) =
      scanPage d h rn now1 page st := by
  have key : (scanPage d h rn now1 page st).lastFileHash = some h ∧
      (scanPage d h rn now1 page st).scannedPages.contains page.id = true := by
    unfold scanPage
    by_cases h1 : st.lastFileHash == some h <;>
      by_cases h2 : st.scannedPages.contains page.id <;>
        split_ifs <;> simp_all [beq_iff_eq] <;> split_ifs <;> simp_all
  obtain ⟨k1, k2⟩ := key
  set S := scanPage d h rn now1 page st with hS
  have k2m : page.id ∈ S.scannedPages := by
    simpa using k2
  unfold scanPage
  simp [k1, k2m]

/-- The measure of a concatenated forest is the sum of the measures. -/
theorem forestSize_append (a b : List FNode) :
    forestSize (a ++ b) = forestSize a + forestSize b := by
  induction a with
  | nil => simp [forestSize]
  | cons x xs ih =>
    simp [forestSize, ih]
    omega

/-- Stepping into the children of a head node shrinks the worklist
measure. -/
theorem forestSize_children_lt (n : FNode) (rest : List FNode) :
    forestSize (n.children ++ rest) < forestSize (n :: rest) := by
  cases n with
  | mk i ty nm cs =>
    simp [forestSize_append, forestSize, nodeSize, FNode.children]

/-- A traversal that never detects a readable overlay URL accumulates
nothing. -/
theorem scanWorklist_no_detect (d : FNode → Option DetectResult) (links : Links)
    (fh rn pid pn : String) (now : ℕ) :
    ∀ (acc : Links) (l : List FNode),
      (∀ n ∈ forestNodes l, ∀ dr, d n = some dr → dr.url = none) →
      scanWorklist d links fh rn pid pn now acc l = acc := by
  suffices H : ∀ (k : ℕ) (acc : Links) (l : List FNode), forestSize l = k →
      (∀ n ∈ forestNodes l, ∀ dr, d n = some dr → dr.url = none) →
      scanWorklist d links fh rn pid pn now acc l = acc by
    intro acc l hall
    exact H (forestSize l) acc l rfl hall
  intro k
  induction k using Nat.strong_induction_on with
  | _ k ih =>
    intro acc l hk hall
    cases l with
    | nil => simp [scanWorklist]
    | cons n rest =>
      have hstep : scanStep d links fh rn pid pn now acc n = acc := by
        unfold scanStep
        cases hd : d n with
        | none => rfl
        | some dr =>
          have hu := hall n (by rw [forestNodes]; exact List.mem_cons_self _ _) dr hd
          simp [hu]
      have hlt : forestSize (n.children ++ rest) < k := by
        rw [← hk]
        exact forestSize_children_lt n rest
      simp only [scanWorklist]
      rw [hstep]
      apply ih (forestSize (n.children ++ rest)) hlt acc (n.children ++ rest) rfl
      intro m hm dr hdr
      apply hall m _ dr hdr
      rw [forestNodes]
      exact List.mem_cons_of_mem _ hm

/-- Claim C10: scanning a page in which no node yields a detected
overlay with a readable URL performs no storage write: the stored
mapping is unchanged. -/
theorem claim_C10 (d : FNode → Option DetectResult) (h rn : String) (now : ℕ)
    (page : FNode) (st : ScanState)
    (hall : ∀ n ∈ forestNodes page.children, ∀ dr, d n = some dr → dr.url = none) :
    (scanPage d h rn now page st).storage = st.storage := by
  have hf : ∀ (links : Links),
      scanWorklist d links h rn page.id page.name now [] page.children = [] := by
    intro links
    exact scanWorklist_no_detect d links h rn page.id page.name now [] page.children hall
  unfold scanPage
  by_cases h1 : st.lastFileHash == some h <;>
    by_cases h2 : st.scannedPages.contains page.id <;>
      simp [h1, h2, hf] <;> split <;> rfl

/-- Claim C10 witness: the hypothesis and conclusion with a detector
that fires nowhere on a concrete one-node page. -/
theorem claim_C10_witness :
    (∀ n ∈ forestNodes cPage10.children, ∀ dr,
      (fun (_ : FNode) => (none : Option DetectResult)) n = some dr → dr.url = none) ∧
    (scanPage (fun _ => none) "h" "root" 7 cPage10 cStEmpty).storage =
      cStEmpty.storage :=
  ⟨(fun _ _ _ hdr => nomatch hdr),
    claim_C10 (fun _ => none) "h" "root" 7 cPage10 cStEmpty
      (fun _ _ _ hdr => nomatch hdr)⟩

/-- Unfolding lookup over a cons cell. -/
theorem lookupLinks_cons (q : String × LinkRecord) (t : Links) (k : String) :
    lookupLinks (q :: t) k = if q.1 == k then some q.2 else lookupLinks t k := by
  unfold lookupLinks
  rw [List.find?_cons]
  by_cases hq : q.1 == k <;> simp [hq]

/-- In-place update: looking up the written key finds the new record. -/
theorem lookup_map_setEntry_self (k : String) (v : LinkRecord) :
    ∀ (m : Links), m.any (fun p => p.1 == k) = true →
      lookupLinks (m.map (fun p => if p.1 == k then (k, v) else p)) k = some v := by
  intro m
  induction m with
  | nil =>
    intro h
    simp at h
  | cons q rest ih =>
    intro h
    rw [List.map_cons]
    by_cases hq : q.1 == k
    · have hfnq : (if q.1 == k then (k, v) else q) = (k, v) := by simp [hq]
      rw [hfnq, lookupLinks_cons]
      simp
    · have hfnq : (if q.1 == k then (k, v) else q) = q := by simp [hq]
      have hr : rest.any (fun p => p.1 == k) = true := by
        simp only [List.any_cons, hq, Bool.false_or] at h
        exact h
      rw [hfnq, lookupLinks_cons, if_neg hq]
      exact ih hr

/-- In-place update: other keys read the old mapping. -/
theorem lookup_map_setEntry_ne (k' k : String) (v : LinkRecord)
    (hkk : (k == k') = false) :
    ∀ (m : Links),
      lookupLinks (m.map (fun p => if p.1 == k then (k, v) else p)) k' =
        lookupLinks m k' := by
  intro m
  induction m with
  | nil => rfl
  | cons q rest ih =>
    rw [List.map_cons]
    by_cases hq : q.1 == k
    · have hfnq : (if q.1 == k then (k, v) else q) = (k, v) := by simp [hq]
      rw [hfnq, lookupLinks_cons, lookupLinks_cons, eq_of_beq hq]
      simp only [hkk, Bool.false_eq_true, if_false]
      exact ih
    · have hfnq : (if q.1 == k then (k, v) else q) = q := by simp [hq]
      rw [hfnq, lookupLinks_cons, lookupLinks_cons]
      by_cases hq' : q.1 == k'
      · rw [if_pos hq', if_pos hq']
      · rw [if_neg hq', if_neg hq']
        exact ih

/-- Appending a fresh entry: looking up its key finds it. -/
theorem lookup_append_single_self (k : String) (v : LinkRecord) :
    ∀ (m : Links), m.any (fun p => p.1 == k) = false →
      lookupLinks (m ++ [(k, v)]) k = some v := by
  intro m hm
  unfold lookupLinks
  rw [List.find?_append]
  have h1 : List.find? (fun p => p.1 == k) m = none := by
    rw [List.find?_eq_none]
    exact List.any_eq_false.mp hm
  rw [h1]
  simp [List.find?_cons]

/-- Appending an entry for another key changes no other lookup. -/
theorem lookup_append_single_ne (k' k : String) (v : LinkRecord)
    (hkk : (k == k') = false) :
    ∀ (m : Links), lookupLinks (m ++ [(k, v)]) k' = lookupLinks m k' := by
  intro m
  unfold lookupLinks
  rw [List.find?_append]
  have h2 : List.find? (fun p => p.1 == k') [(k, v)] = none := by
    simp [List.find?_cons, hkk]
  rw [h2]
  cases List.find? (fun p => p.1 == k') m <;> rfl

/-- Reading back the key just written returns the new record. -/
theorem lookup_setKey_self (m : Links) (k : String) (v : LinkRecord) :
    lookupLinks (setKey m k v) k = some v := by
  unfold setKey
  split_ifs with hin
  · exact lookup_map_setEntry_self k v m hin
  · apply lookup_append_single_self k v m
    simp only [Bool.not_eq_true] at hin
    exact hin

/-- Writing one key leaves every other key unchanged. -/
theorem lookup_setKey_ne (m : Links) (k : String) (v : LinkRecord) (k' : String)
    (hne : k' ≠ k) : lookupLinks (setKey m k v) k' = lookupLinks m k' := by
  have hkk : (k == k') = false := by
    simp only [beq_eq_false_iff_ne, ne_eq]
    exact fun hc => hne hc.symm
  unfold setKey
  split_ifs with hin
  · exact lookup_map_setEntry_ne k' k v hkk m
  · exact lookup_append_single_ne k' k v hkk m

/-- setKey keeps the key list, appending the key only when absent. -/
theorem setKey_keys (m : Links) (k : String) (v : LinkRecord) :
    (setKey m k v).map Prod.fst =
      if m.any (fun p => p.1 == k) then m.map Prod.fst
      else m.map Prod.fst ++ [k] := by
  unfold setKey
  split_ifs with hin
  · rw [List.map_map]
    apply List.map_congr_left
    intro p _
    by_cases hp : p.1 == k
    · simp [hp, eq_of_beq hp]
    · have hp2 : ¬ p.1 = k := by simpa using hp
      simp [hp, hp2]
  · simp

/-- setKey preserves distinctness of the stored keys. -/
theorem setKey_nodup (m : Links) (k : String) (v : LinkRecord)
    (h : (m.map Prod.fst).Nodup) : ((setKey m k v).map Prod.fst).Nodup := by
  rw [setKey_keys]
  split_ifs with hin
  · exact h
  · have hk : k ∉ m.map Prod.fst := by
      intro hmem
      apply hin
      obtain ⟨p, hp, hpk⟩ := List.mem_map.mp hmem
      exact List.any_eq_true.mpr ⟨p, hp, by simp [hpk]⟩
    simp [List.nodup_append, h, hk]

/-- With distinct source keys, Object.assign looks up in the source
first and falls back to the target. -/
theorem lookup_objectAssign : ∀ (src m : Links) (k : String),
    (src.map Prod.fst).Nodup →
    lookupLinks (objectAssign m src) k =
      (lookupLinks src k).or (lookupLinks m k) := by
  intro src
  induction src with
  | nil =>
    intro m k _
    simp [objectAssign, lookupLinks]
  | cons q rest ih =>
    intro m k hnd
    rw [List.map_cons] at hnd
    obtain ⟨hq1, hnd'⟩ := List.nodup_cons.mp hnd
    simp only [objectAssign, List.foldl_cons] at ih ⊢
    rw [ih (setKey m q.1 q.2) k hnd']
    by_cases hk : k = q.1
    · subst hk
      have hnone : lookupLinks rest q.1 = none := by
        unfold lookupLinks
        have hfind : List.find? (fun p => p.1 == q.1) rest = none := by
          rw [List.find?_eq_none]
          intro x hx hc
          exact hq1 (List.mem_map.mpr ⟨x, hx, eq_of_beq hc⟩)
        rw [hfind]
        rfl
      rw [hnone, lookup_setKey_self]
      simp [lookupLinks_cons]
    · rw [lookup_setKey_ne m q.1 q.2 k hk]
      have hq : (q.1 == k) = false := by
        simp only [beq_eq_false_iff_ne, ne_eq]
        exact fun hc => hk hc.symm
      simp [lookupLinks_cons, hq]

/-- The traversal keeps keys distinct and stamps every accumulated
record with the code.js 439 timestamp rule against the storage snapshot
loaded at scan start. -/
theorem scanWorklist_inv (d : FNode → Option DetectResult) (links : Links)
    (fh rn pid pn : String) (now : ℕ) :
    ∀ (acc : Links) (l : List FNode),
      (acc.map Prod.fst).Nodup →
      (∀ k r, lookupLinks acc k = some r → r.timestamp = scanTimestamp links k now) →
      ((scanWorklist d links fh rn pid pn now acc l).map Prod.fst).Nodup ∧
        ∀ k r, lookupLinks (scanWorklist d links fh rn pid pn now acc l) k = some r →
          r.timestamp = scanTimestamp links k now := by
  suffices H : ∀ (sz : ℕ) (acc : Links) (l : List FNode), forestSize l = sz →
      (acc.map Prod.fst).Nodup →
      (∀ k r, lookupLinks acc k = some r → r.timestamp = scanTimestamp links k now) →
      ((scanWorklist d links fh rn pid pn now acc l).map Prod.fst).Nodup ∧
        ∀ k r, lookupLinks (scanWorklist d links fh rn pid pn now acc l) k = some r →
          r.timestamp = scanTimestamp links k now by
    intro acc l hnd hts
    exact H (forestSize l) acc l rfl hnd hts
  intro sz
  induction sz using Nat.strong_induction_on with
  | _ sz ih =>
    intro acc l hsz hnd hts
    cases l with
    | nil =>
      simp only [scanWorklist]
      exact ⟨hnd, hts⟩
    | cons n rest =>
      have hstep_nd : ((scanStep d links fh rn pid pn now acc n).map Prod.fst).Nodup := by
        unfold scanStep
        split
        · split
          · exact setKey_nodup _ _ _ hnd
          · exact hnd
        · exact hnd
      have hstep_ts : ∀ k r,
          lookupLinks (scanStep d links fh rn pid pn now acc n) k = some r →
          r.timestamp = scanTimestamp links k now := by
        unfold scanStep
        split
        · split
          · intro k r hkr
            by_cases hk : k = n.id
            · subst hk
              rw [lookup_setKey_self] at hkr
              cases hkr
              simp [mkScanRecord]
            · rw [lookup_setKey_ne _ _ _ _ hk] at hkr
              exact hts k r hkr
          · exact hts
        · exact hts
      simp only [scanWorklist]
      exact ih (forestSize (n.children ++ rest))
        (hsz ▸ forestSize_children_lt n rest) _ _ rfl hstep_nd hstep_ts

/-- Claim C7 (amended: a stored zero timestamp is falsy for the
JavaScript truthiness test and is replaced by the current time): the
mapping written by a page scan is the stored mapping updated with the
freshly discovered records — stored entries whose id was not
rediscovered keep their lookup result unchanged, and every rediscovered
record carries the previously stored timestamp when a nonzero one
exists, the current time otherwise. -/
theorem claim_C7 (d : FNode → Option DetectResult) (fileHash rootName : String)
    (now : ℕ) (page : FNode) (st : ScanState)
    (hh : st.lastFileHash = some fileHash)
    (hp : st.scannedPages.contains page.id = false) :
    (∀ k, lookupLinks (scanWorklist d st.storage fileHash rootName page.id page.name
        now [] page.children) k = none →
      lookupLinks (scanPage d fileHash rootName now page st).storage k =
        lookupLinks st.storage k) ∧
    (∀ k r, lookupLinks (scanWorklist d st.storage fileHash rootName page.id page.name
        now [] page.children) k = some r →
      lookupLinks (scanPage d fileHash rootName now page st).storage k = some r ∧
        r.timestamp = scanTimestamp st.storage k now) := by
  obtain ⟨hnd, hts⟩ := scanWorklist_inv d st.storage fileHash rootName page.id
    page.name now [] page.children (by simp) (by intro k r hkr; simp [lookupLinks] at hkr)
  have hst : (scanPage d fileHash rootName now page st).storage =
      if (scanWorklist d st.storage fileHash rootName page.id page.name now
          [] page.children).length == 0 then st.storage
      else objectAssign st.storage (scanWorklist d st.storage fileHash rootName
        page.id page.name now [] page.children) := by
    unfold scanPage
    simp only [hh, beq_self_eq_true, if_true, hp, Bool.false_eq_true, if_false]
    split <;> rfl
  constructor
  · intro k hk
    rw [hst]
    by_cases hlen : (scanWorklist d st.storage fileHash rootName page.id page.name now
        [] page.children).length == 0
    · simp [hlen]
    · simp only [hlen, Bool.false_eq_true, if_false]
      rw [lookup_objectAssign _ st.storage k hnd, hk]
      simp
  · intro k r hkr
    have hFne : ((scanWorklist d st.storage fileHash rootName page.id page.name now
        [] page.children).length == 0) = false := by
      cases hF : scanWorklist d st.storage fileHash rootName page.id page.name now
          [] page.children with
      | nil => rw [hF] at hkr; simp [lookupLinks] at hkr
      | cons a b => simp
    rw [hst]
    simp only [hFne, Bool.false_eq_true, if_false]
    rw [lookup_objectAssign _ st.storage k hnd, hkr]
    exact ⟨rfl, hts k r hkr⟩

/-- Claim C7 witness: the hypotheses and conclusion at a concrete page
scan over empty storage. -/
theorem claim_C7_witness :
    cStEmpty.lastFileHash = some "h" ∧
    cStEmpty.scannedPages.contains cPage7.id = false ∧
    ((∀ k, lookupLinks (scanWorklist cDetect7 cStEmpty.storage "h" "root" cPage7.id
        cPage7.name 7 [] cPage7.children) k = none →
      lookupLinks (scanPage cDetect7 "h" "root" 7 cPage7 cStEmpty).storage k =
        lookupLinks cStEmpty.storage k) ∧
    (∀ k r, lookupLinks (scanWorklist cDetect7 cStEmpty.storage "h" "root" cPage7.id
        cPage7.name 7 [] cPage7.children) k = some r →
      lookupLinks (scanPage cDetect7 "h" "root" 7 cPage7 cStEmpty).storage k = some r ∧
        r.timestamp = scanTimestamp cStEmpty.storage k 7)) :=
  ⟨rfl, rfl, claim_C7 cDetect7 "h" "root" 7 cPage7 cStEmpty rfl rfl⟩

/-- Claim C7 counterexample: a stored record with timestamp 0 is
rediscovered, yet the written record carries the scan time 7, not the
previously stored timestamp — zero is falsy for the JavaScript
truthiness test of code.js 439. -/
theorem claim_C7_counterexample :
    (lookupLinks cSt7.storage "n").map LinkRecord.timestamp = some 0 ∧
    (lookupLinks (scanPage cDetect7 "h" "root" 7 cPage7 cSt7).storage "n").map
      LinkRecord.timestamp = some 7 := by
  constructor
  · rfl
  · simp [scanPage, cSt7, cPage7, scanWorklist, scanStep, cDetect7, mkScanRecord,
      scanTimestamp, cRec7, setKey, objectAssign, lookupLinks, FNode.id,
      FNode.children, FNode.name, lookupLinks_cons, List.find?_cons]

end AnyLink
